import Mathlib

/-!
Verification of the `lime` multi-device synchronization core.

This file gives a shallow embedding, in Lean, of the sync subsystem of the
repository (hybrid logical clock, change tracker, sync protocol push/pull
and apply, encryption wire format, device lifecycle) and proves or refutes
the stated properties of its specification.

Conventions used throughout:

* Python byte strings are `List Nat` (one `Nat` per byte).
* Python strings compare by Unicode code point; `pyStrLt` below is exactly
  that order, and is also used for the SQL string comparisons on the
  `hlc_timestamp` column (SQLite binary collation on these ASCII strings
  coincides with code-point order).
* Exceptions are `Except`/`Option` results.
* Machine integers do not overflow in the modelled code paths (Python ints
  are unbounded), so `Nat` is used directly.
-/

namespace Lime

/-! ### Python string order

`listLexLt` is lexicographic comparison of character lists by code point,
which is Python's `<` on `str` values (and memcmp order on their ASCII
encodings, hence also the order SQLite uses on the `hlc_timestamp` column).
-/

def listLexLt : List Char → List Char → Bool
  | [], [] => false
  | [], _ :: _ => true
  | _ :: _, [] => false
  | a :: as, b :: bs =>
    if a.toNat < b.toNat then true
    else if b.toNat < a.toNat then false
    else listLexLt as bs

/-- Python `s1 < s2` on strings (code-point lexicographic order). -/
def pyStrLt (s1 s2 : String) : Bool := listLexLt s1.data s2.data

/-- Python `s1 <= s2` on strings. -/
def pyStrLe (s1 s2 : String) : Bool := !(pyStrLt s2 s1)

theorem listLexLt_irrefl : ∀ l : List Char, listLexLt l l = false := by
  intro l
  induction l with
  | nil => rfl
  | cons a as ih => simp [listLexLt, ih]

theorem listLexLt_asymm :
    ∀ l1 l2 : List Char, listLexLt l1 l2 = true → listLexLt l2 l1 = false := by
  intro l1
  induction l1 with
  | nil => intro l2 h; cases l2 with
    | nil => simp [listLexLt] at h
    | cons b bs => simp [listLexLt]
  | cons a as ih =>
    intro l2 h
    cases l2 with
    | nil => simp [listLexLt] at h
    | cons b bs =>
      simp only [listLexLt] at h ⊢
      by_cases hab : a.toNat < b.toNat
      · have : ¬ b.toNat < a.toNat := by omega
        simp [hab, this]
      · by_cases hba : b.toNat < a.toNat
        · simp [hab, hba] at h
        · simp only [hab, if_false, hba, if_false] at h ⊢
          simp [ih bs h]

theorem listLexLt_trans :
    ∀ l1 l2 l3 : List Char, listLexLt l1 l2 = true → listLexLt l2 l3 = true →
      listLexLt l1 l3 = true := by
  intro l1
  induction l1 with
  | nil =>
    intro l2 l3 h12 h23
    cases l2 with
    | nil => simp [listLexLt] at h12
    | cons b bs =>
      cases l3 with
      | nil => simp [listLexLt] at h23
      | cons c cs => simp [listLexLt]
  | cons a as ih =>
    intro l2 l3 h12 h23
    cases l2 with
    | nil => simp [listLexLt] at h12
    | cons b bs =>
      cases l3 with
      | nil => simp [listLexLt] at h23
      | cons c cs =>
        simp only [listLexLt] at h12 h23 ⊢
        by_cases hab : a.toNat < b.toNat
        · by_cases hbc : b.toNat < c.toNat
          · have hac : a.toNat < c.toNat := by omega
            simp [hac]
          · by_cases hcb : c.toNat < b.toNat
            · simp [hbc, hcb] at h23
            · have hbc' : b.toNat = c.toNat := by omega
              have hac : a.toNat < c.toNat := by omega
              simp [hac]
        · by_cases hba : b.toNat < a.toNat
          · simp [hab, hba] at h12
          · have hab' : a.toNat = b.toNat := by omega
            by_cases hbc : b.toNat < c.toNat
            · have hac : a.toNat < c.toNat := by omega
              simp [hac]
            · by_cases hcb : c.toNat < b.toNat
              · simp [hbc, hcb] at h23
              · have hac : ¬ a.toNat < c.toNat := by omega
                have hca : ¬ c.toNat < a.toNat := by omega
                simp only [hab, if_false, hba, if_false] at h12
                simp only [hbc, if_false, hcb, if_false] at h23
                simp [hac, hca, ih bs cs h12 h23]

theorem listLexLt_eq_of_not_lt :
    ∀ l1 l2 : List Char, listLexLt l1 l2 = false → listLexLt l2 l1 = false →
      l1 = l2 := by
  intro l1
  induction l1 with
  | nil =>
    intro l2 h12 _h21
    cases l2 with
    | nil => rfl
    | cons b bs => simp [listLexLt] at h12
  | cons a as ih =>
    intro l2 h12 h21
    cases l2 with
    | nil => simp [listLexLt] at h21
    | cons b bs =>
      simp only [listLexLt] at h12 h21
      by_cases hab : a.toNat < b.toNat
      · simp [hab] at h12
      · by_cases hba : b.toNat < a.toNat
        · simp [hba, hab] at h21
        · have hn : a.toNat = b.toNat := by omega
          have hc : a = b := by
            rw [← Char.ofNat_toNat a, ← Char.ofNat_toNat b, hn]
          simp only [hab, if_false, hba, if_false] at h12 h21
          rw [hc, ih bs h12 h21]

theorem pyStrLe_trans (a b c : String) :
    pyStrLe a b = true → pyStrLe b c = true → pyStrLe a c = true := by
  simp only [pyStrLe, Bool.not_eq_true', Bool.not_eq_false]
  intro hba hcb
  by_cases hca : pyStrLt c a = true
  · exfalso
    unfold pyStrLt at *
    rcases h : listLexLt a.data b.data with _ | _
    · rcases h2 : listLexLt b.data a.data with _ | _
      · have := listLexLt_eq_of_not_lt _ _ h h2
        rw [this] at hca
        rw [hca] at hcb
        simp at hcb
      · rw [hba] at h2; simp at h2
    · have := listLexLt_trans _ _ _ hca h
      rw [this] at hcb
      simp at hcb
  · simpa using hca

theorem pyStrLe_total (a b : String) : pyStrLe a b = true ∨ pyStrLe b a = true := by
  simp only [pyStrLe, Bool.not_eq_true', Bool.not_eq_false]
  by_cases h : pyStrLt b a = true
  · right
    unfold pyStrLt at *
    exact listLexLt_asymm _ _ h
  · left
    simpa using h

theorem pyStrLe_refl (a : String) : pyStrLe a a = true := by
  simp [pyStrLe, pyStrLt, listLexLt_irrefl]

/-! ### Hybrid logical clock (`src/backend/sync/clock.py`)

`HLCTimestamp` is the frozen dataclass `(wall_ms, counter, node_id)`;
`hlcGt` is its `__gt__` method (field-wise comparison, node ids compared
as Python strings).
-/

structure HLCTimestamp where
  wall_ms : Nat
  counter : Nat
  node_id : String
deriving DecidableEq, Repr

/-- `HLCTimestamp.__gt__`: compare `wall_ms`, then `counter`, then
`node_id` (Python string order). -/
def hlcGt (a b : HLCTimestamp) : Bool :=
  if a.wall_ms ≠ b.wall_ms then decide (a.wall_ms > b.wall_ms)
  else if a.counter ≠ b.counter then decide (a.counter > b.counter)
  else pyStrLt b.node_id a.node_id

/-- Mutable state of `HybridLogicalClock`: `(_last_wall_ms, _counter)`. -/
structure ClockState where
  last_wall_ms : Nat
  counter : Nat
deriving DecidableEq, Repr

/-- `HybridLogicalClock.__init__`: both fields start at zero. -/
def clockInit : ClockState := ⟨0, 0⟩

/-- State transition of `HybridLogicalClock.now()` given the physical
reading `phys` returned by `_physical_ms()` at this call. -/
def nowStep (phys : Nat) (s : ClockState) : ClockState :=
  if phys > s.last_wall_ms then ⟨phys, 0⟩
  else ⟨s.last_wall_ms, s.counter + 1⟩

/-- State transition of `HybridLogicalClock.receive(remote)` given the
physical reading `phys` at this call. -/
def receiveStep (phys : Nat) (remote : HLCTimestamp) (s : ClockState) : ClockState :=
  if phys > s.last_wall_ms ∧ phys > remote.wall_ms then ⟨phys, 0⟩
  else if remote.wall_ms > s.last_wall_ms then ⟨remote.wall_ms, remote.counter + 1⟩
  else if s.last_wall_ms = remote.wall_ms then ⟨s.last_wall_ms, max s.counter remote.counter + 1⟩
  else ⟨s.last_wall_ms, s.counter + 1⟩

/-- The timestamp both methods emit: the post-call clock state stamped
with the clock's `node_id`. -/
def emit (node : String) (s : ClockState) : HLCTimestamp :=
  ⟨s.last_wall_ms, s.counter, node⟩

/-- One call on the clock, together with the arbitrary physical-clock
reading observed during that call. -/
inductive ClockCall where
  | now (phys : Nat)
  | recv (phys : Nat) (remote : HLCTimestamp)
deriving DecidableEq, Repr

def clockStep (s : ClockState) : ClockCall → ClockState
  | .now phys => nowStep phys s
  | .recv phys remote => receiveStep phys remote s

/-- Run a sequence of calls; each call is paired with the timestamp it
returned. -/
def runClock (node : String) (s : ClockState) : List ClockCall → List (ClockCall × HLCTimestamp)
  | [] => []
  | c :: cs => ((c, emit node (clockStep s c))) :: runClock node (clockStep s c) cs

/-- Strict order on clock states: lexicographic on `(last_wall_ms, counter)`. -/
def stateLt (s t : ClockState) : Prop :=
  s.last_wall_ms < t.last_wall_ms ∨
    (s.last_wall_ms = t.last_wall_ms ∧ s.counter < t.counter)

theorem stateLt_trans {s t u : ClockState} (h1 : stateLt s t) (h2 : stateLt t u) :
    stateLt s u := by
  unfold stateLt at *
  omega

theorem clockStep_stateLt (s : ClockState) (c : ClockCall) : stateLt s (clockStep s c) := by
  cases c with
  | now phys =>
    simp only [clockStep, nowStep, stateLt]
    split_ifs with h
    · exact Or.inl h
    · exact Or.inr ⟨rfl, Nat.lt_succ_self _⟩
  | recv phys remote =>
    simp only [clockStep, receiveStep, stateLt]
    split_ifs with h1 h2 h3
    · exact Or.inl h1.1
    · exact Or.inl h2
    · exact Or.inr ⟨rfl, Nat.lt_succ_of_le (Nat.le_max_left _ _)⟩
    · exact Or.inr ⟨rfl, Nat.lt_succ_self _⟩

theorem hlcGt_of_wall {a b : HLCTimestamp} (h : b.wall_ms < a.wall_ms) :
    hlcGt a b = true := by
  unfold hlcGt
  have hne : a.wall_ms ≠ b.wall_ms := by omega
  simp [hne]
  omega

theorem hlcGt_of_counter {a b : HLCTimestamp} (hw : a.wall_ms = b.wall_ms)
    (h : b.counter < a.counter) : hlcGt a b = true := by
  unfold hlcGt
  have h1 : ¬ a.wall_ms ≠ b.wall_ms := by omega
  have h2 : a.counter ≠ b.counter := by omega
  simp [h1, h2]
  omega

theorem hlcGt_emit {s t : ClockState} (node : String) (h : stateLt s t) :
    hlcGt (emit node t) (emit node s) = true := by
  rcases h with h | ⟨hw, hc⟩
  · exact hlcGt_of_wall h
  · exact hlcGt_of_counter hw.symm hc

theorem runClock_mem_node (node : String) :
    ∀ (cs : List ClockCall) (s : ClockState) (p : ClockCall × HLCTimestamp),
      p ∈ runClock node s cs → p.2.node_id = node := by
  intro cs
  induction cs with
  | nil => intro s p h; simp [runClock] at h
  | cons c rest ih =>
    intro s p h
    simp only [runClock, List.mem_cons] at h
    rcases h with h | h
    · subst h; rfl
    · exact ih _ _ h

theorem runClock_mem_stateLt (node : String) :
    ∀ (cs : List ClockCall) (s : ClockState) (p : ClockCall × HLCTimestamp),
      p ∈ runClock node s cs → stateLt s ⟨p.2.wall_ms, p.2.counter⟩ := by
  intro cs
  induction cs with
  | nil => intro s p h; simp [runClock] at h
  | cons c rest ih =>
    intro s p h
    simp only [runClock, List.mem_cons] at h
    rcases h with h | h
    · subst h
      exact clockStep_stateLt s c
    · exact stateLt_trans (clockStep_stateLt s c) (ih _ _ h)

theorem runClock_pairwise (node : String) :
    ∀ (cs : List ClockCall) (s : ClockState),
      (runClock node s cs).Pairwise (fun p q => hlcGt q.2 p.2 = true) := by
  intro cs
  induction cs with
  | nil => intro s; simp [runClock]
  | cons c rest ih =>
    intro s
    simp only [runClock]
    refine List.Pairwise.cons ?_ (ih _)
    intro q hq
    have hnode := runClock_mem_node node rest (clockStep s c) q hq
    have hst := runClock_mem_stateLt node rest (clockStep s c) q hq
    have : q.2 = emit node ⟨q.2.wall_ms, q.2.counter⟩ := by
      cases hq2 : q.2
      simp [emit]
      simpa [hq2] using hnode
    rw [this]
    exact hlcGt_emit node hst

theorem receiveStep_gt_remote (node : String) (phys : Nat) (remote : HLCTimestamp)
    (s : ClockState) : hlcGt (emit node (receiveStep phys remote s)) remote = true := by
  unfold receiveStep
  split_ifs with h1 h2 h3
  · exact hlcGt_of_wall h1.2
  · exact hlcGt_of_counter rfl (Nat.lt_succ_self _)
  · exact hlcGt_of_counter h3 (Nat.lt_succ_of_le (Nat.le_max_right _ _))
  · exact hlcGt_of_wall (show remote.wall_ms < s.last_wall_ms by omega)

theorem runClock_recv_gt (node : String) :
    ∀ (cs : List ClockCall) (s : ClockState) (p : ClockCall × HLCTimestamp),
      p ∈ runClock node s cs →
      ∀ (phys : Nat) (remote : HLCTimestamp), p.1 = ClockCall.recv phys remote →
        hlcGt p.2 remote = true := by
  intro cs
  induction cs with
  | nil => intro s p h; simp [runClock] at h
  | cons c rest ih =>
    intro s p h phys remote hp
    simp only [runClock, List.mem_cons] at h
    rcases h with h | h
    · subst h
      simp only at hp
      subst hp
      exact receiveStep_gt_remote node phys remote s
    · exact ih _ _ h phys remote hp

/-- C1. Every timestamp a single `HybridLogicalClock` returns from `now()`
or `receive()` is strictly greater (in the `(wall_ms, counter, node_id)`
lexicographic order of `__gt__`) than every timestamp the clock returned
earlier, whatever physical-clock reading each call observes; and each
`receive(r)` result is strictly greater than `r` itself. -/
theorem hlc_monotone (node : String) (calls : List ClockCall) :
    (runClock node clockInit calls).Pairwise (fun p q => hlcGt q.2 p.2 = true) ∧
    (∀ p ∈ runClock node clockInit calls,
      ∀ (phys : Nat) (remote : HLCTimestamp), p.1 = ClockCall.recv phys remote →
        hlcGt p.2 remote = true) := by
  exact ⟨runClock_pairwise node calls clockInit,
    fun p hp => runClock_recv_gt node calls clockInit p hp⟩

/-- Witness for C1: on the concrete trace `[now 5, receive 4 (9,3,"m")]`
the clock returns `(9,4,"n")` for the receive, which is strictly greater
than the remote `(9,3,"m")`. -/
theorem hlc_monotone_witness :
    hlcGt ⟨9, 4, "n"⟩ ⟨9, 3, "m"⟩ = true := by
  have h := (hlc_monotone "n" [ClockCall.now 5, ClockCall.recv 4 ⟨9, 3, "m"⟩]).2
  exact h (ClockCall.recv 4 ⟨9, 3, "m"⟩, ⟨9, 4, "n"⟩) (by decide) 4 ⟨9, 3, "m"⟩ rfl

/-! ### HLC string form (`HLCTimestamp.__str__`)

`__str__` renders `"{wall_ms}:{counter:04d}:{node_id}"`: the wall time in
decimal, the counter in decimal zero-padded to at least four digits, and
the node id verbatim.  `padDec k n` is the `k`-digit zero-padded decimal
rendering (most significant digit first), `decLen n` the number of decimal
digits of `n` (with `decLen 0 = 1`, as for Python `str(0) = "0"`).
-/

def digitChar (d : Nat) : Char := Char.ofNat (48 + d)

def padDec : Nat → Nat → List Char
  | 0, _ => []
  | k + 1, n => digitChar (n / 10 ^ k) :: padDec k (n % 10 ^ k)

/-- Number of decimal digits, computed with a fuel argument (`n` itself is
always enough fuel, since the loop divides by ten each step). -/
def decLenAux : Nat → Nat → Nat
  | 0, _ => 0
  | fuel + 1, n => if n < 10 then 1 else decLenAux fuel (n / 10) + 1

def decLen (n : Nat) : Nat := decLenAux (n + 1) n

/-- Python `str(n)` for a natural number: unpadded decimal rendering. -/
def decRepr (n : Nat) : List Char := padDec (decLen n) n

/-- Python `"{c:04d}"`: decimal, zero-padded to width four, wider if the
number needs more digits. -/
def pad4 (c : Nat) : List Char := padDec (max (decLen c) 4) c

/-- `HLCTimestamp.__str__`. -/
def hlcStr (t : HLCTimestamp) : String :=
  String.mk (decRepr t.wall_ms ++ ':' :: (pad4 t.counter ++ ':' :: t.node_id.data))

example : hlcStr ⟨1005, 7, "abc"⟩ = "1005:0007:abc" := by decide
example : hlcStr ⟨0, 12345, "n"⟩ = "0:12345:n" := by decide

theorem padDec_length : ∀ k n, (padDec k n).length = k := by
  intro k
  induction k with
  | zero => intro n; rfl
  | succ k ih => intro n; simp [padDec, ih]

theorem digitChar_toNat {d : Nat} (h : d < 10) : (digitChar d).toNat = 48 + d := by
  interval_cases d <;> decide

theorem decLenAux_lt_pow :
    ∀ fuel n, n ≤ fuel → n < 10 ^ decLenAux fuel n := by
  intro fuel
  induction fuel with
  | zero =>
    intro n h
    have : n = 0 := by omega
    subst this
    simp [decLenAux]
  | succ fuel ih =>
    intro n h
    simp only [decLenAux]
    split_ifs with h10
    · simpa using h10
    · have hdiv : n / 10 ≤ fuel := by omega
      have := ih (n / 10) hdiv
      have h2 : n < 10 * (n / 10) + 10 := by omega
      calc n < 10 * (n / 10) + 10 := h2
        _ = 10 * (n / 10 + 1) := by ring
        _ ≤ 10 * 10 ^ decLenAux fuel (n / 10) := by
              have : n / 10 + 1 ≤ 10 ^ decLenAux fuel (n / 10) := this
              exact Nat.mul_le_mul_left 10 this
        _ = 10 ^ (decLenAux fuel (n / 10) + 1) := by ring

theorem decLen_lt_pow (n : Nat) : n < 10 ^ decLen n :=
  decLenAux_lt_pow (n + 1) n (Nat.le_succ n)

theorem decLenAux_le_of_lt_pow :
    ∀ fuel k n, n ≤ fuel → 1 ≤ k → n < 10 ^ k → decLenAux fuel n ≤ k := by
  intro fuel
  induction fuel with
  | zero =>
    intro k n h _ _
    have : n = 0 := by omega
    subst this
    simp [decLenAux]
  | succ fuel ih =>
    intro k n h hk hpow
    simp only [decLenAux]
    split_ifs with h10
    · omega
    · have hk2 : 2 ≤ k := by
        by_contra hc
        have : k = 1 := by omega
        subst this
        simp at hpow
        omega
      have hdivpow : n / 10 < 10 ^ (k - 1) := by
        have h1 : (0:Nat) < 10 := by norm_num
        rw [Nat.div_lt_iff_lt_mul h1]
        have : 10 ^ (k - 1) * 10 = 10 ^ k := by
          rw [← pow_succ]
          congr 1
          omega
        omega
      have := ih (k - 1) (n / 10) (by omega) (by omega) hdivpow
      omega

theorem decLen_le_of_lt_pow {k n : Nat} (hk : 1 ≤ k) (h : n < 10 ^ k) :
    decLen n ≤ k :=
  decLenAux_le_of_lt_pow (n + 1) k n (Nat.le_succ n) hk h

theorem div_lt_of_order {B n m : Nat} (hB : 0 < B) (h : n / B < m / B) : n < m := by
  have hn := Nat.div_add_mod n B
  have hm := Nat.div_add_mod m B
  have h1 : B * (n / B) + B ≤ B * (m / B) := by
    have h2 : n / B + 1 ≤ m / B := h
    calc B * (n / B) + B = B * (n / B + 1) := by ring
      _ ≤ B * (m / B) := Nat.mul_le_mul_left _ h2
  have h3 : n % B < B := Nat.mod_lt _ hB
  omega

theorem padDec_lexLt :
    ∀ k n m, n < 10 ^ k → m < 10 ^ k →
      listLexLt (padDec k n) (padDec k m) = decide (n < m) := by
  intro k
  induction k with
  | zero =>
    intro n m hn hm
    simp at hn hm
    subst hn; subst hm
    rfl
  | succ k ih =>
    intro n m hn hm
    have hB : (0:Nat) < 10 ^ k := Nat.pos_pow_of_pos k (by norm_num)
    have hpow : (10:Nat) ^ (k + 1) = 10 ^ k * 10 := by ring
    have hdn : n / 10 ^ k < 10 := by
      rw [Nat.div_lt_iff_lt_mul hB]
      omega
    have hdm : m / 10 ^ k < 10 := by
      rw [Nat.div_lt_iff_lt_mul hB]
      omega
    simp only [padDec, listLexLt]
    rw [digitChar_toNat hdn, digitChar_toNat hdm]
    by_cases hlt : n / 10 ^ k < m / 10 ^ k
    · have h1 : (48 + n / 10 ^ k) < 48 + m / 10 ^ k := by omega
      simp only [h1, if_true]
      have hnm : n < m := div_lt_of_order hB hlt
      simp [hnm]
    · by_cases hgt : m / 10 ^ k < n / 10 ^ k
      · have h1 : ¬ (48 + n / 10 ^ k) < 48 + m / 10 ^ k := by omega
        have h2 : (48 + m / 10 ^ k) < 48 + n / 10 ^ k := by omega
        simp only [h1, if_false, h2, if_true]
        have hmn : m < n := div_lt_of_order hB hgt
        have h3 : ¬ n < m := by omega
        simp [h3]
      · have heq : n / 10 ^ k = m / 10 ^ k := by omega
        have h1 : ¬ (48 + n / 10 ^ k) < 48 + m / 10 ^ k := by omega
        have h2 : ¬ (48 + m / 10 ^ k) < 48 + n / 10 ^ k := by omega
        simp only [h1, if_false, h2, if_false]
        rw [ih (n % 10 ^ k) (m % 10 ^ k) (Nat.mod_lt n hB) (Nat.mod_lt m hB)]
        have hn' := Nat.div_add_mod n (10 ^ k)
        have hm' := Nat.div_add_mod m (10 ^ k)
        rw [heq] at hn'
        have hiff : n < m ↔ n % 10 ^ k < m % 10 ^ k := by
          constructor <;> intro hx <;> omega
        simp [hiff]

theorem padDec_inj {k n m : Nat} (hn : n < 10 ^ k) (hm : m < 10 ^ k)
    (h : padDec k n = padDec k m) : n = m := by
  have h1 := padDec_lexLt k n m hn hm
  have h2 := padDec_lexLt k m n hm hn
  rw [h] at h1
  rw [← h] at h2
  rw [listLexLt_irrefl] at h1 h2
  have hnm : ¬ n < m := by
    intro hc
    simp [hc] at h1
  have hmn : ¬ m < n := by
    intro hc
    simp [hc] at h2
  omega

theorem listLexLt_append :
    ∀ (xs ys u v : List Char), xs.length = ys.length →
      listLexLt (xs ++ u) (ys ++ v) =
        if xs = ys then listLexLt u v else listLexLt xs ys := by
  intro xs
  induction xs with
  | nil =>
    intro ys u v h
    cases ys with
    | nil => simp
    | cons b bs => simp at h
  | cons a as ih =>
    intro ys u v h
    cases ys with
    | nil => simp at h
    | cons b bs =>
      have hlen : as.length = bs.length := by simpa using h
      by_cases hab : a.toNat < b.toNat
      · have hne : ¬ (a :: as = b :: bs) := by
          intro hc
          have h2 : a = b ∧ as = bs := by simpa using hc
          rcases h2 with ⟨h2, _⟩
          subst h2
          omega
        rw [if_neg hne]
        show listLexLt (a :: (as ++ u)) (b :: (bs ++ v)) = listLexLt (a :: as) (b :: bs)
        simp [listLexLt, hab]
      · by_cases hba : b.toNat < a.toNat
        · have hne : ¬ (a :: as = b :: bs) := by
            intro hc
            have h2 : a = b ∧ as = bs := by simpa using hc
            rcases h2 with ⟨h2, _⟩
            subst h2
            omega
          rw [if_neg hne]
          show listLexLt (a :: (as ++ u)) (b :: (bs ++ v)) = listLexLt (a :: as) (b :: bs)
          simp [listLexLt, hab, hba]
        · have hch : a = b := by
            have hn : a.toNat = b.toNat := by omega
            rw [← Char.ofNat_toNat a, ← Char.ofNat_toNat b, hn]
          subst hch
          have hstep : ∀ x y : List Char, listLexLt (a :: x) (a :: y) = listLexLt x y := by
            intro x y
            simp [listLexLt]
          rw [List.cons_append, List.cons_append, hstep, ih bs u v hlen]
          by_cases he : as = bs
          · simp [he]
          · have hne2 : ¬ (a :: as = a :: bs) := by simp [he]
            rw [if_neg he, if_neg hne2, hstep]

theorem pad4_eq {c : Nat} (h : c < 10000) : pad4 c = padDec 4 c := by
  unfold pad4
  have h4 : decLen c ≤ 4 := decLen_le_of_lt_pow (by norm_num)
    (by have h5 : (10:Nat) ^ 4 = 10000 := by norm_num
        omega)
  rw [Nat.max_eq_right h4]

/-- C9 counterexample: `(1, 10000, "n")` and `(1, 9999, "n")` are both
producible by one clock (10000 and 9999 `now()` calls in one millisecond),
`(1,10000,"n") > (1,9999,"n")` as timestamps, yet its string
`"1:10000:n"` sorts *below* `"1:9999:n"`, because the counter overflows
the four-digit padding. -/
theorem hlcStr_order_disagrees :
    hlcGt ⟨1, 10000, "n"⟩ ⟨1, 9999, "n"⟩ = true ∧
    pyStrLt (hlcStr ⟨1, 9999, "n"⟩) (hlcStr ⟨1, 10000, "n"⟩) = false := by
  constructor
  · decide
  · decide

/-- C9 (amended). String comparison of `__str__` forms agrees with the
`(wall_ms, counter, node_id)` order whenever the two wall times have the
same number of decimal digits and both counters fit the four-digit
padding (`< 10000`): under those conditions
`str(b) < str(a)` (Python string order) exactly when `a > b` (`__gt__`). -/
theorem hlcStr_order_agrees (a b : HLCTimestamp)
    (hw : decLen a.wall_ms = decLen b.wall_ms)
    (hca : a.counter < 10000) (hcb : b.counter < 10000) :
    pyStrLt (hlcStr b) (hlcStr a) = hlcGt a b := by
  unfold pyStrLt hlcStr
  simp only [String.data]
  unfold decRepr
  rw [hw]
  have hwa : a.wall_ms < 10 ^ decLen b.wall_ms := by
    rw [← hw]; exact decLen_lt_pow a.wall_ms
  have hwb : b.wall_ms < 10 ^ decLen b.wall_ms := decLen_lt_pow b.wall_ms
  rw [listLexLt_append _ _ _ _ (by rw [padDec_length, padDec_length])]
  by_cases hwall : b.wall_ms = a.wall_ms
  · have hpadeq : padDec (decLen b.wall_ms) b.wall_ms = padDec (decLen b.wall_ms) a.wall_ms := by
      rw [hwall]
    rw [if_pos hpadeq]
    have hcolon : ∀ x y : List Char, listLexLt (':' :: x) (':' :: y) = listLexLt x y := by
      intro x y
      simp [listLexLt]
    rw [hcolon]
    rw [pad4_eq hca, pad4_eq hcb]
    rw [listLexLt_append _ _ _ _ (by rw [padDec_length, padDec_length])]
    by_cases hcnt : b.counter = a.counter
    · have hpadc : padDec 4 b.counter = padDec 4 a.counter := by rw [hcnt]
      rw [if_pos hpadc, hcolon]
      unfold hlcGt
      have h1 : ¬ a.wall_ms ≠ b.wall_ms := by omega
      have h2 : ¬ a.counter ≠ b.counter := by omega
      simp [h1, h2, pyStrLt]
    · have hpadc : padDec 4 b.counter ≠ padDec 4 a.counter := by
        intro hc
        exact hcnt (padDec_inj (by omega) (by omega) hc)
      rw [if_neg hpadc]
      rw [padDec_lexLt 4 b.counter a.counter (by omega) (by omega)]
      unfold hlcGt
      have h1 : ¬ a.wall_ms ≠ b.wall_ms := by omega
      have h2 : a.counter ≠ b.counter := by omega
      simp [h1, h2]
  · have hpadne : padDec (decLen b.wall_ms) b.wall_ms ≠ padDec (decLen b.wall_ms) a.wall_ms := by
      intro hc
      exact hwall (padDec_inj hwb hwa hc)
    rw [if_neg hpadne]
    rw [padDec_lexLt _ _ _ hwb hwa]
    unfold hlcGt
    have h1 : a.wall_ms ≠ b.wall_ms := by omega
    simp [h1]

/-- Witness for C9 (amended) at wall times `1000`/`1200` (same digit
count) and counters `1`/`0`. -/
theorem hlcStr_order_agrees_witness :
    decLen 1000 = decLen 1200 ∧ 1 < 10000 ∧ 0 < 10000 ∧
    pyStrLt (hlcStr ⟨1200, 0, "y"⟩) (hlcStr ⟨1000, 1, "x"⟩) =
      hlcGt ⟨1000, 1, "x"⟩ ⟨1200, 0, "y"⟩ :=
  ⟨by decide, by decide, by decide,
    hlcStr_order_agrees ⟨1000, 1, "x"⟩ ⟨1200, 0, "y"⟩ (by decide) (by decide) (by decide)⟩

/-! ### Change tracker (`src/backend/sync/changelog.py`)

`ChangeTracker` hooks SQLAlchemy's after-flush event.  A flush presents the
session's `new` / `dirty` / `deleted` object sets; the hook appends one
`ChangeLogEntry` per mutated row of a syncable table, stamped by
`clock.now()` — unless the tracker is suppressed, in which case it returns
immediately and appends nothing.
-/

/-- `SYNCABLE_TABLES` from `changelog.py`. -/
def syncableTables : List String :=
  ["meetings", "speakers", "meeting_speakers", "transcript_segments",
   "meeting_analyses", "action_items", "analysis_decisions", "topic_segments",
   "user_corrections", "people", "projects", "decisions", "topics",
   "person_meetings", "project_meetings", "topic_meetings"]

/-- One ORM object visible in a flush: its table, stringified primary key
(`_get_pk`), the non-null column values (`_get_all_fields`), the
attribute-history diff (`_get_changed_fields`), and the result of
`session.is_modified(obj, include_collections=False)`. -/
structure FlushObj where
  table : String
  pk : String
  allFields : List (String × String)
  changedFields : List (String × String)
  isModified : Bool
deriving DecidableEq

/-- The session's `new` / `dirty` / `deleted` sets at a flush. -/
structure FlushSets where
  objNew : List FlushObj
  objDirty : List FlushObj
  objDeleted : List FlushObj
deriving DecidableEq

/-- `ChangeTracker` mutable state: its device id (also the clock's node id)
and the `_suppressed` flag. -/
structure TrackerState where
  device_id : String
  suppressed : Bool
deriving DecidableEq

/-- A `ChangeLogEntry` as constructed by `ChangeTracker._make_entry`
(`changed_fields` is `None` when the field dict is falsy). -/
structure LogEntryRec where
  hlc_timestamp : String
  device_id : String
  entity_table : String
  entity_id : String
  operation : String
  changed_fields : Option (List (String × String))
deriving DecidableEq

/-- `ChangeTracker._make_entry`: stamp `clock.now()` and build the row. -/
def makeEntry (tr : TrackerState) (c : ClockState) (phys : Nat)
    (table entityId op : String) (fields : Option (List (String × String))) :
    LogEntryRec × ClockState :=
  let c2 := nowStep phys c
  ({ hlc_timestamp := hlcStr (emit tr.device_id c2),
     device_id := tr.device_id,
     entity_table := table,
     entity_id := entityId,
     operation := op,
     changed_fields := match fields with
       | none => none
       | some fs => if fs.isEmpty then none else some fs }, c2)

/-- `ChangeTracker._after_flush`: if suppressed, return at once adding no
entries; otherwise log INSERTs for syncable `new` objects, UPDATEs for
modified syncable `dirty` objects with a non-empty change set, and DELETEs
for syncable `deleted` objects, in that visit order (each entry stamped by
`clock.now()`, modelled with one physical reading per flush). -/
def afterFlush (tr : TrackerState) (c : ClockState) (phys : Nat) (s : FlushSets) :
    List LogEntryRec × ClockState :=
  if tr.suppressed then ([], c)
  else
    let ins := (s.objNew.filter (fun o => syncableTables.contains o.table)).map
      (fun o => (o.table, o.pk, "INSERT", some o.allFields))
    let upd := (s.objDirty.filter (fun o =>
        o.isModified && syncableTables.contains o.table && !o.changedFields.isEmpty)).map
      (fun o => (o.table, o.pk, "UPDATE", some o.changedFields))
    let del := (s.objDeleted.filter (fun o => syncableTables.contains o.table)).map
      (fun o => (o.table, o.pk, "DELETE", (none : Option (List (String × String)))))
    (ins ++ upd ++ del).foldl
      (fun acc item =>
        let r := makeEntry tr acc.2 phys item.1 item.2.1 item.2.2.1 item.2.2.2
        (acc.1 ++ [r.1], r.2))
      ([], c)

/-- One iteration of the loop in `SyncProtocol._apply_remote_changes`: the
clock receives the remote entry's timestamp, then `_apply_entry` writes
rows and flushes; `writes` is whatever object sets that flush presents. -/
structure RemoteApplyStep where
  remote_ts : HLCTimestamp
  recv_phys : Nat
  flush_phys : Nat
  writes : FlushSets
deriving DecidableEq

/-- `SyncProtocol._apply_remote_changes`, projected onto what the change
tracker observes: the whole batch loop runs inside
`change_tracker.suppress()`, so every flush during it sees
`_suppressed = True`; the flag is restored on exit.  Returns the changelog
entries emitted during the batch, the final clock, and the final tracker
state. -/
def applyRemoteChangesEmissions (tr : TrackerState) (c : ClockState)
    (steps : List RemoteApplyStep) : List LogEntryRec × ClockState × TrackerState :=
  let tr2 := { tr with suppressed := true }
  let r := steps.foldl
    (fun (acc : List LogEntryRec × ClockState) st =>
      let c1 := receiveStep st.recv_phys st.remote_ts acc.2
      let r2 := afterFlush tr2 c1 st.flush_phys st.writes
      (acc.1 ++ r2.1, r2.2))
    ([], c)
  (r.1, r.2, { tr2 with suppressed := false })

theorem afterFlush_suppressed (tr : TrackerState) (c : ClockState) (phys : Nat)
    (s : FlushSets) (h : tr.suppressed = true) : afterFlush tr c phys s = ([], c) := by
  unfold afterFlush
  rw [if_pos h]

theorem applyRemote_fold_emissions (tr2 : TrackerState) (h : tr2.suppressed = true) :
    ∀ (steps : List RemoteApplyStep) (acc : List LogEntryRec × ClockState),
      (steps.foldl
        (fun (acc : List LogEntryRec × ClockState) st =>
          let c1 := receiveStep st.recv_phys st.remote_ts acc.2
          let r2 := afterFlush tr2 c1 st.flush_phys st.writes
          (acc.1 ++ r2.1, r2.2)) acc).1 = acc.1 := by
  intro steps
  induction steps with
  | nil => intro acc; rfl
  | cons st rest ih =>
    intro acc
    simp only [List.foldl_cons]
    rw [ih]
    simp [afterFlush_suppressed _ _ _ _ h]

/-- C3. While `_apply_remote_changes` applies a batch, the tracker emits no
changelog entry: whatever rows each per-entry flush presents and whatever
the clock does, the entries emitted during the suppressed scope are `[]`,
and the suppression flag is restored to `False` afterwards. -/
theorem apply_remote_suppresses_tracker (tr : TrackerState) (c : ClockState)
    (steps : List RemoteApplyStep) :
    (applyRemoteChangesEmissions tr c steps).1 = [] ∧
    (applyRemoteChangesEmissions tr c steps).2.2.suppressed = false := by
  unfold applyRemoteChangesEmissions
  refine ⟨?_, rfl⟩
  exact applyRemote_fold_emissions { tr with suppressed := true } rfl steps ([], c)

/-- Sanity check (not a claim): with suppression off, the same flush does
emit entries — suppression, not vacuity, is what makes the batch silent. -/
example :
    (afterFlush ⟨"dev", false⟩ clockInit 7
      ⟨[⟨"meetings", "m1", [("title", "hi")], [], false⟩], [], []⟩).1.length = 1 := by
  decide

/-! ### Applying one remote entry (`SyncProtocol._apply_entry`)

The local relational store is modelled as
`table name → entity id → Option Row`, a row being a map from column name
to optional value.  `registry` is the static SQLAlchemy mapper registry:
table name → schema (primary-key column names and all column names).
`_apply_fields` skips primary-key columns and columns absent from the
schema.
-/

structure TableSchema where
  pkCols : List String
  cols : List String

def Row : Type := String → Option String

def Store : Type := String → String → Option Row

/-- The `ChangeEntry` dataclass handed to `_apply_entry` (parsed from a
pulled batch). -/
structure ChangeEntryRec where
  hlc_timestamp : String
  device_id : String
  entity_table : String
  entity_id : String
  operation : String
  changed_fields : Option (List (String × String))

/-- Python truthiness of `entry.changed_fields` (`None` and `{}` falsy). -/
def fieldsTruthy : Option (List (String × String)) → Bool
  | none => false
  | some fs => !fs.isEmpty

/-- `SyncProtocol._apply_fields`: set each provided column on the row,
skipping primary-key columns and unknown columns. -/
def applyFields (schema : TableSchema) (row : Row) (fields : List (String × String)) : Row :=
  fields.foldl
    (fun r kv =>
      if schema.pkCols.contains kv.1 then r
      else if !(schema.cols.contains kv.1) then r
      else fun col => if col = kv.1 then some kv.2 else r col)
    row

/-- Point update of one table's row map. -/
def setRow (store : Store) (table pk : String) (row? : Option Row) : Store :=
  fun t e => if t = table ∧ e = pk then row? else store t e

/-- `SyncProtocol._apply_entry`: route on the mapper registry and the
operation; DELETE removes the row if present; INSERT updates an existing
row (idempotency) or creates a fresh object whose first primary-key column
is set to `entity_id`; UPDATE overwrites the listed columns if the row
exists and is dropped otherwise; unknown tables are skipped. -/
def applyEntry (registry : String → Option TableSchema) (entry : ChangeEntryRec)
    (store : Store) : Store :=
  match registry entry.entity_table with
  | none => store
  | some schema =>
    if entry.operation = "DELETE" then
      match store entry.entity_table entry.entity_id with
      | some _ => setRow store entry.entity_table entry.entity_id none
      | none => store
    else if entry.operation = "INSERT" then
      match store entry.entity_table entry.entity_id with
      | some existing =>
        if fieldsTruthy entry.changed_fields then
          setRow store entry.entity_table entry.entity_id
            (some (applyFields schema existing (entry.changed_fields.getD [])))
        else store
      | none =>
        let pk0 := schema.pkCols.headD ""
        let fresh : Row := fun col => if col = pk0 then some entry.entity_id else none
        let obj := if fieldsTruthy entry.changed_fields
          then applyFields schema fresh (entry.changed_fields.getD [])
          else fresh
        setRow store entry.entity_table entry.entity_id (some obj)
    else if entry.operation = "UPDATE" then
      match store entry.entity_table entry.entity_id with
      | some obj =>
        if fieldsTruthy entry.changed_fields then
          setRow store entry.entity_table entry.entity_id
            (some (applyFields schema obj (entry.changed_fields.getD [])))
        else store
      | none => store
    else store

theorem setRow_lookup_same (s : Store) (t pk : String) (v : Option Row) :
    setRow s t pk v t pk = v := by
  simp [setRow]

theorem setRow_setRow (s : Store) (t pk : String) (v w : Option Row) :
    setRow (setRow s t pk v) t pk w = setRow s t pk w := by
  funext a b
  unfold setRow
  split_ifs <;> rfl

/-- Last value the (filtered) field list assigns to column `col`. -/
def lastVal (schema : TableSchema) (fields : List (String × String)) (col : String) :
    Option String :=
  fields.foldl
    (fun acc kv =>
      if schema.pkCols.contains kv.1 then acc
      else if !(schema.cols.contains kv.1) then acc
      else if col = kv.1 then some kv.2 else acc)
    none

theorem lastVal_acc (schema : TableSchema) (col : String) :
    ∀ (fields : List (String × String)) (acc : Option String),
      fields.foldl
        (fun acc kv =>
          if schema.pkCols.contains kv.1 then acc
          else if !(schema.cols.contains kv.1) then acc
          else if col = kv.1 then some kv.2 else acc)
        acc =
      match lastVal schema fields col with
      | some v => some v
      | none => acc := by
  intro fields
  induction fields with
  | nil => intro acc; simp [lastVal]
  | cons kv rest ih =>
    intro acc
    simp only [List.foldl_cons]
    rw [ih]
    have hR : lastVal schema (kv :: rest) col =
        match lastVal schema rest col with
        | some v => some v
        | none =>
          if schema.pkCols.contains kv.1 then none
          else if !(schema.cols.contains kv.1) then none
          else if col = kv.1 then some kv.2 else none := by
      simp only [lastVal, List.foldl_cons]
      rw [ih]
      rfl
    rw [hR]
    cases hF : lastVal schema rest col with
    | some v => simp
    | none => split_ifs with h1 h2 h3 <;> rfl

theorem applyFields_lookup (schema : TableSchema) :
    ∀ (fields : List (String × String)) (row : Row) (col : String),
      applyFields schema row fields col =
        match lastVal schema fields col with
        | some v => some v
        | none => row col := by
  intro fields
  induction fields with
  | nil => intro row col; simp [applyFields, lastVal]
  | cons kv rest ih =>
    intro row col
    simp only [applyFields, List.foldl_cons] at *
    rw [ih]
    have hl : lastVal schema (kv :: rest) col =
        match lastVal schema rest col with
        | some v => some v
        | none =>
          if schema.pkCols.contains kv.1 then none
          else if !(schema.cols.contains kv.1) then none
          else if col = kv.1 then some kv.2 else none := by
      simp only [lastVal, List.foldl_cons]
      rw [lastVal_acc]
      rfl
    rw [hl]
    cases hrest : lastVal schema rest col with
    | some v => simp
    | none =>
      simp only
      split_ifs with h1 h2 h3
      · rfl
      · rfl
      · simp [h3]
      · simp [h3]

theorem applyFields_idem (schema : TableSchema) (row : Row)
    (fields : List (String × String)) :
    applyFields schema (applyFields schema row fields) fields =
      applyFields schema row fields := by
  funext col
  rw [applyFields_lookup, applyFields_lookup]
  cases h : lastVal schema fields col with
  | some v => simp
  | none => simp

/-- C2. `_apply_entry` is idempotent: applying the same remote change
entry twice leaves the local store exactly as applying it once, for every
mapper registry, entry and starting store (DELETE finds no row the second
time; INSERT finds the row it created and rewrites the same values; UPDATE
overwrites columns with the values they already hold). -/
theorem applyEntry_idempotent (registry : String → Option TableSchema)
    (entry : ChangeEntryRec) (store : Store) :
    applyEntry registry entry (applyEntry registry entry store) =
      applyEntry registry entry store := by
  unfold applyEntry
  cases hreg : registry entry.entity_table with
  | none => rfl
  | some schema =>
    by_cases hdel : entry.operation = "DELETE"
    · simp only [if_pos hdel]
      cases hrow : store entry.entity_table entry.entity_id with
      | some r => simp [hrow, setRow_lookup_same]
      | none => simp [hrow]
    · by_cases hins : entry.operation = "INSERT"
      · simp only [if_neg hdel, if_pos hins]
        cases hrow : store entry.entity_table entry.entity_id with
        | some existing =>
          by_cases ht : fieldsTruthy entry.changed_fields = true
          · simp [hrow, ht, setRow_lookup_same, applyFields_idem, setRow_setRow]
          · have ht' : fieldsTruthy entry.changed_fields = false := by
              simpa using ht
            simp [hrow, ht']
        | none =>
          by_cases ht : fieldsTruthy entry.changed_fields = true
          · simp [hrow, ht, setRow_lookup_same, applyFields_idem, setRow_setRow]
          · have ht' : fieldsTruthy entry.changed_fields = false := by
              simpa using ht
            simp [hrow, ht', setRow_lookup_same, setRow_setRow]
      · by_cases hupd : entry.operation = "UPDATE"
        · simp only [if_neg hdel, if_neg hins, if_pos hupd]
          cases hrow : store entry.entity_table entry.entity_id with
          | some obj =>
            by_cases ht : fieldsTruthy entry.changed_fields = true
            · simp [hrow, ht, setRow_lookup_same, applyFields_idem, setRow_setRow]
            · have ht' : fieldsTruthy entry.changed_fields = false := by
                simpa using ht
              simp [hrow, ht']
          | none => simp [hrow]
        · simp only [if_neg hdel, if_neg hins, if_neg hupd]

/-! ### Conflict routing (`SyncProtocol._find_local_conflict` and the
pull-apply loop)

`sync_changelog` rows are modelled as a list; the SQL query filters on
`(entity_table, entity_id, device_id, hlc_timestamp >= remote)` — the
timestamp comparison is on the stored strings — orders descending by
`hlc_timestamp` and takes the first row.
-/

/-- A stored `ChangeLogEntry` row (`changed_fields` is its JSON text). -/
structure StoredEntry where
  hlc_timestamp : String
  device_id : String
  entity_table : String
  entity_id : String
  operation : String
  changed_fields : Option String
deriving DecidableEq

/-- The filter of `_find_local_conflict`'s query. -/
def conflictMatch (selfDev : String) (remote : ChangeEntryRec) (e : StoredEntry) : Bool :=
  e.entity_table == remote.entity_table && e.entity_id == remote.entity_id &&
    e.device_id == selfDev && pyStrLe remote.hlc_timestamp e.hlc_timestamp

/-- `SyncProtocol._find_local_conflict`: filter, order by `hlc_timestamp`
descending, first row. -/
def findLocalConflict (selfDev : String) (changelog : List StoredEntry)
    (remote : ChangeEntryRec) : Option StoredEntry :=
  ((changelog.filter (conflictMatch selfDev remote)).mergeSort
    (fun a b => pyStrLe b.hlc_timestamp a.hlc_timestamp)).head?

/-- How the loop in `_apply_remote_changes` routes one remote entry:
`local_entry = self._find_local_conflict(db, remote)`; if truthy the entry
goes through `conflict_resolver.detect_and_resolve`, otherwise it is
applied directly. -/
inductive ApplyRoute where
  | direct
  | viaResolver (localEntry : StoredEntry)
deriving DecidableEq

def routeForEntry (selfDev : String) (changelog : List StoredEntry)
    (remote : ChangeEntryRec) : ApplyRoute :=
  match findLocalConflict selfDev changelog remote with
  | some l => ApplyRoute.viaResolver l
  | none => ApplyRoute.direct

theorem findLocalConflict_isSome (selfDev : String) (changelog : List StoredEntry)
    (remote : ChangeEntryRec) :
    (findLocalConflict selfDev changelog remote).isSome = true ↔
      ∃ e ∈ changelog, conflictMatch selfDev remote e = true := by
  unfold findLocalConflict
  constructor
  · intro h
    cases hl : (changelog.filter (conflictMatch selfDev remote)).mergeSort
        (fun a b => pyStrLe b.hlc_timestamp a.hlc_timestamp) with
    | nil => rw [hl] at h; simp at h
    | cons y ys =>
      have hy : y ∈ (changelog.filter (conflictMatch selfDev remote)).mergeSort
          (fun a b => pyStrLe b.hlc_timestamp a.hlc_timestamp) := by
        rw [hl]
        exact List.mem_cons_self _ _
      rw [List.mem_mergeSort, List.mem_filter] at hy
      exact ⟨y, hy.1, hy.2⟩
  · intro ⟨e, he, hm⟩
    have hne : (changelog.filter (conflictMatch selfDev remote)).mergeSort
        (fun a b => pyStrLe b.hlc_timestamp a.hlc_timestamp) ≠ [] := by
      intro hc
      have : e ∈ (changelog.filter (conflictMatch selfDev remote)).mergeSort
          (fun a b => pyStrLe b.hlc_timestamp a.hlc_timestamp) := by
        rw [List.mem_mergeSort, List.mem_filter]
        exact ⟨he, hm⟩
      rw [hc] at this
      simp at this
    cases hl : (changelog.filter (conflictMatch selfDev remote)).mergeSort
        (fun a b => pyStrLe b.hlc_timestamp a.hlc_timestamp) with
    | nil => exact absurd hl hne
    | cons y ys => simp [hl]

/-- C4. During pull-apply a remote entry is routed to the conflict
resolver exactly when the local changelog holds an entry for the same
`(entity_table, entity_id)` whose `device_id` is this device and whose
`hlc_timestamp` (as stored string) is `≥` the remote entry's; with no such
entry it is applied directly. -/
theorem conflict_routing (selfDev : String) (changelog : List StoredEntry)
    (remote : ChangeEntryRec) :
    ((∃ l, routeForEntry selfDev changelog remote = ApplyRoute.viaResolver l) ↔
      ∃ e ∈ changelog, conflictMatch selfDev remote e = true) ∧
    (routeForEntry selfDev changelog remote = ApplyRoute.direct ↔
      ¬ ∃ e ∈ changelog, conflictMatch selfDev remote e = true) := by
  have hiff := findLocalConflict_isSome selfDev changelog remote
  unfold routeForEntry
  cases hf : findLocalConflict selfDev changelog remote with
  | none =>
    rw [hf] at hiff
    simp at hiff
    constructor
    · constructor
      · intro ⟨l, hl⟩
        simp at hl
      · intro ⟨e, he, hm⟩
        have h2 := hiff e he
        rw [hm] at h2
        simp at h2
    · constructor
      · intro _
        intro ⟨e, he, hm⟩
        have h2 := hiff e he
        rw [hm] at h2
        simp at h2
      · intro _
        rfl
  | some l =>
    rw [hf] at hiff
    simp at hiff
    constructor
    · constructor
      · intro _
        exact hiff
      · intro _
        exact ⟨l, rfl⟩
    · constructor
      · intro hc
        simp at hc
      · intro hc
        exact absurd hiff hc

/-! ### Push (`SyncProtocol.push`)

The push-relevant database state: the changelog rows and the
`last_pushed_hlc` cursor of this device's own `SyncState` row.  The query
selects this device's entries, restricted (when the cursor is set) to
`hlc_timestamp >` the cursor, ordered ascending by `hlc_timestamp`;
batches of at most `MAX_BATCH_SIZE` entries are uploaded, and the cursor
advances to the last selected entry's `hlc_timestamp`.  (File-manifest
upload is independent state, not modelled here.)
-/

def MAX_BATCH_SIZE : Nat := 500

structure PushDB where
  changelog : List StoredEntry
  last_pushed : Option String
deriving DecidableEq

structure PushStats where
  batches_pushed : Nat
  entries_pushed : Nat
deriving DecidableEq

/-- The `hlc_timestamp > last_pushed` filter, applied only when the cursor
is set (`if last_pushed:` in the source). -/
def cursorPass (lp : Option String) (e : StoredEntry) : Bool :=
  match lp with
  | none => true
  | some c => pyStrLt c e.hlc_timestamp

/-- The entry-selection query of `push`. -/
def selectUnpushed (selfDev : String) (db : PushDB) : List StoredEntry :=
  (db.changelog.filter
      (fun e => e.device_id == selfDev && cursorPass db.last_pushed e)).mergeSort
    (fun a b => pyStrLe a.hlc_timestamp b.hlc_timestamp)

/-- `entries[i:i+MAX_BATCH_SIZE]` slicing loop. -/
def chunksOf (l : List StoredEntry) : List (List StoredEntry) :=
  if h : l = [] then []
  else l.take MAX_BATCH_SIZE :: chunksOf (l.drop MAX_BATCH_SIZE)
termination_by l.length
decreasing_by
  cases l with
  | nil => exact absurd rfl h
  | cons a as =>
    simp [MAX_BATCH_SIZE]
    omega

/-- `SyncProtocol.push`: select, batch, upload, advance the cursor to the
last selected entry; with nothing selected, return zero stats untouched.
Returns (stats, new state, uploaded batches). -/
def push (selfDev : String) (db : PushDB) :
    PushStats × PushDB × List (List StoredEntry) :=
  if h : selectUnpushed selfDev db = [] then (⟨0, 0⟩, db, [])
  else
    (⟨(chunksOf (selectUnpushed selfDev db)).length, (selectUnpushed selfDev db).length⟩,
      { db with last_pushed := some ((selectUnpushed selfDev db).getLast h).hlc_timestamp },
      chunksOf (selectUnpushed selfDev db))

theorem pyStrLt_trans (a b c : String) :
    pyStrLt a b = true → pyStrLt b c = true → pyStrLt a c = true := by
  unfold pyStrLt
  exact listLexLt_trans a.data b.data c.data

/-- In a `Pairwise le` list the last element is an upper bound. -/
theorem pairwise_le_getLast {α : Type} (le : α → α → Bool)
    (hrefl : ∀ a, le a a = true) :
    ∀ (l : List α) (hl : l ≠ []),
      l.Pairwise (fun a b => le a b = true) →
      ∀ e ∈ l, le e (l.getLast hl) = true := by
  intro l
  induction l with
  | nil => intro hl; exact absurd rfl hl
  | cons a as ih =>
    intro hl hp e he
    cases as with
    | nil =>
      simp at he
      subst he
      exact hrefl e
    | cons b bs =>
      have hne : b :: bs ≠ [] := by simp
      rw [List.getLast_cons hne]
      rcases List.mem_cons.mp he with he1 | he2
      · subst he1
        exact List.rel_of_pairwise_cons hp (List.getLast_mem hne)
      · exact ih hne (List.Pairwise.of_cons hp) e he2

theorem selectUnpushed_sorted (selfDev : String) (db : PushDB) :
    (selectUnpushed selfDev db).Pairwise
      (fun a b => pyStrLe a.hlc_timestamp b.hlc_timestamp = true) := by
  unfold selectUnpushed
  have h := @List.sorted_mergeSort StoredEntry
    (fun a b : StoredEntry => pyStrLe a.hlc_timestamp b.hlc_timestamp)
    (fun a b c hab hbc => pyStrLe_trans _ _ _ hab hbc)
    (fun a b => by
      rcases pyStrLe_total a.hlc_timestamp b.hlc_timestamp with h | h <;> simp [h])
    (db.changelog.filter
      (fun e => e.device_id == selfDev && cursorPass db.last_pushed e))
  exact h

/-- C5. When `push` uploads at least one entry, `last_pushed_hlc` becomes
the `hlc_timestamp` of the last pushed entry, an upper bound (in the query
ordering) of every selected entry; an immediately following `push` with an
unchanged changelog selects nothing, uploads nothing, and reports zero
batches and zero entries. -/
theorem push_watermark (selfDev : String) (db : PushDB)
    (h : selectUnpushed selfDev db ≠ []) :
    (push selfDev db).2.1.last_pushed =
      some ((selectUnpushed selfDev db).getLast h).hlc_timestamp ∧
    (∀ e ∈ selectUnpushed selfDev db,
      pyStrLe e.hlc_timestamp
        ((selectUnpushed selfDev db).getLast h).hlc_timestamp = true) ∧
    (push selfDev db).1.entries_pushed = (selectUnpushed selfDev db).length ∧
    push selfDev (push selfDev db).2.1 = (⟨0, 0⟩, (push selfDev db).2.1, []) := by
  have hmax : ∀ e ∈ selectUnpushed selfDev db,
      pyStrLe e.hlc_timestamp
        ((selectUnpushed selfDev db).getLast h).hlc_timestamp = true := by
    intro e he
    exact pairwise_le_getLast
      (fun a b : StoredEntry => pyStrLe a.hlc_timestamp b.hlc_timestamp)
      (fun a => pyStrLe_refl _)
      (selectUnpushed selfDev db) h (selectUnpushed_sorted selfDev db) e he
  have hfil : db.changelog.filter
      (fun e => e.device_id == selfDev &&
        cursorPass (some ((selectUnpushed selfDev db).getLast h).hlc_timestamp) e) = [] := by
    rw [List.filter_eq_nil_iff]
    intro e he
    simp only [Bool.and_eq_true, beq_iff_eq, not_and]
    intro hdev
    unfold cursorPass
    simp only [Bool.not_eq_true]
    by_cases hcp : cursorPass db.last_pushed e = true
    · have hee : e ∈ selectUnpushed selfDev db := by
        unfold selectUnpushed
        rw [List.mem_mergeSort, List.mem_filter]
        exact ⟨he, by simp [hdev, hcp]⟩
      have h3 := hmax e hee
      unfold pyStrLe at h3
      simpa using h3
    · cases hlp : db.last_pushed with
      | none => rw [hlp] at hcp; simp [cursorPass] at hcp
      | some lp =>
        rw [hlp] at hcp
        simp only [cursorPass, Bool.not_eq_true] at hcp
        have hlast : (selectUnpushed selfDev db).getLast h ∈ selectUnpushed selfDev db :=
          List.getLast_mem h
        have hlast2 : cursorPass db.last_pushed ((selectUnpushed selfDev db).getLast h) = true := by
          have h4 : (selectUnpushed selfDev db).getLast h ∈
              db.changelog.filter
                (fun e => e.device_id == selfDev && cursorPass db.last_pushed e) := by
            have h5 := hlast
            unfold selectUnpushed at h5
            rw [List.mem_mergeSort] at h5
            exact h5
          rw [List.mem_filter] at h4
          have h6 := h4.2
          simp only [Bool.and_eq_true] at h6
          exact h6.2
        rw [hlp] at hlast2
        simp only [cursorPass] at hlast2
        by_cases hLe : pyStrLt ((selectUnpushed selfDev db).getLast h).hlc_timestamp
            e.hlc_timestamp = true
        · have h7 := pyStrLt_trans lp _ e.hlc_timestamp hlast2 hLe
          rw [h7] at hcp
          simp at hcp
        · simpa using hLe
  have hsel2 : selectUnpushed selfDev
      ({db with
          last_pushed := some ((selectUnpushed selfDev db).getLast h).hlc_timestamp} :
        PushDB) = [] := by
    show (db.changelog.filter
        (fun e => e.device_id == selfDev &&
          cursorPass (some ((selectUnpushed selfDev db).getLast h).hlc_timestamp) e)).mergeSort
      (fun a b => pyStrLe a.hlc_timestamp b.hlc_timestamp) = []
    rw [hfil]
    exact List.mergeSort_nil
  have hpush : push selfDev db =
      (⟨(chunksOf (selectUnpushed selfDev db)).length, (selectUnpushed selfDev db).length⟩,
        { db with last_pushed := some ((selectUnpushed selfDev db).getLast h).hlc_timestamp },
        chunksOf (selectUnpushed selfDev db)) := by
    unfold push
    rw [dif_neg h]
  refine ⟨by rw [hpush], hmax, by rw [hpush], ?_⟩
  rw [hpush]
  show push selfDev _ = _
  unfold push
  rw [dif_pos hsel2]

/-- Witness for C5: one unpushed entry; after the push the cursor is its
HLC string and a second push is a no-op. -/
theorem push_watermark_witness :
    selectUnpushed "d1"
        ⟨[⟨"7:0001:d1", "d1", "meetings", "m1", "INSERT", none⟩], none⟩ ≠ [] ∧
    (push "d1" ⟨[⟨"7:0001:d1", "d1", "meetings", "m1", "INSERT", none⟩], none⟩).2.1.last_pushed =
      some "7:0001:d1" := by
  have hsel : selectUnpushed "d1"
      ⟨[⟨"7:0001:d1", "d1", "meetings", "m1", "INSERT", none⟩], none⟩ =
      [⟨"7:0001:d1", "d1", "meetings", "m1", "INSERT", none⟩] := by
    unfold selectUnpushed
    simp [cursorPass]
  have hne : selectUnpushed "d1"
      ⟨[⟨"7:0001:d1", "d1", "meetings", "m1", "INSERT", none⟩], none⟩ ≠ [] := by
    rw [hsel]
    simp
  refine ⟨hne, ?_⟩
  have h := (push_watermark "d1"
    ⟨[⟨"7:0001:d1", "d1", "meetings", "m1", "INSERT", none⟩], none⟩ hne).1
  rw [h]
  have hgl := List.getLast_congr hne
    (show [(⟨"7:0001:d1", "d1", "meetings", "m1", "INSERT", none⟩ : StoredEntry)] ≠ [] by simp)
    hsel
  rw [hgl, List.getLast_singleton]

/-! ### Encryption service (`src/backend/sync/encryption.py`)

Byte strings are `List Nat`.  The AES-256-GCM primitive comes from the
`cryptography` library, outside this repository; it is modelled
executably below, faithful to its interface — the sealed box is the
plaintext followed by a 16-byte tag depending on key, nonce, AAD and
plaintext, and decryption recomputes the tag and fails on any mismatch —
though of course not to the cipher's actual mathematics.  The wire-format
logic (`EncryptedPayload`, `encrypt_bytes`, `decrypt_bytes`,
`encrypt_sync_payload`, `decrypt_sync_payload`) is translated from the
source; Python exceptions become `Option`/`Except` results, and the
base64 leg of the JSON carriers (a bijection on the combined bytes) is
elided.
-/

/-- `settings.crypto_nonce_len`. -/
def cryptoNonceLen : Nat := 12

/-- `settings.crypto_tag_len`. -/
def cryptoTagLen : Nat := 16

/-- Model of the GCM authentication tag (16 bytes determined by key,
nonce, AAD and plaintext). -/
def gcmTag (key nonce : List Nat) (aad : Option (List Nat)) (pt : List Nat) : List Nat :=
  List.replicate cryptoTagLen
    ((key.sum * 7 + nonce.sum * 5 + (aad.getD []).sum * 3 + pt.sum + pt.length) % 256)

/-- Model of `AESGCM(key).encrypt(nonce, pt, aad)`: ciphertext with the
16-byte tag appended (so its length is the plaintext's plus 16). -/
def aesgcmEncrypt (key nonce : List Nat) (pt : List Nat) (aad : Option (List Nat)) :
    List Nat :=
  pt ++ gcmTag key nonce aad pt

/-- Model of `AESGCM(key).decrypt(nonce, ct, aad)`: split off and check
the tag, failing (`InvalidTag`) on mismatch. -/
def aesgcmDecrypt (key nonce : List Nat) (ct : List Nat) (aad : Option (List Nat)) :
    Option (List Nat) :=
  if ct.length < cryptoTagLen then none
  else if ct.drop (ct.length - cryptoTagLen) =
      gcmTag key nonce aad (ct.take (ct.length - cryptoTagLen)) then
    some (ct.take (ct.length - cryptoTagLen))
  else none

/-- `EncryptedPayload`: nonce and ciphertext-with-tag. -/
structure EncryptedPayload where
  nonce : List Nat
  ciphertext : List Nat
deriving DecidableEq

/-- `EncryptedPayload.to_combined`: `nonce || ciphertext || tag`. -/
def EncryptedPayload.to_combined (p : EncryptedPayload) : List Nat :=
  p.nonce ++ p.ciphertext

/-- `EncryptedPayload.from_combined`: reject when
`len(data) < nonce_len + tag_len + 1`, else split at the nonce length. -/
def EncryptedPayload.from_combined (data : List Nat) : Option EncryptedPayload :=
  if data.length < cryptoNonceLen + cryptoTagLen + 1 then none
  else some ⟨data.take cryptoNonceLen, data.drop cryptoNonceLen⟩

/-- `EncryptionService.encrypt` (key from the unlocked vault, fresh random
`nonce` passed explicitly as the model of `os.urandom`). -/
def serviceEncrypt (key nonce pt : List Nat) (aad : Option (List Nat)) :
    EncryptedPayload :=
  ⟨nonce, aesgcmEncrypt key nonce pt aad⟩

/-- `EncryptionService.decrypt`. -/
def serviceDecrypt (key : List Nat) (p : EncryptedPayload) (aad : Option (List Nat)) :
    Option (List Nat) :=
  aesgcmDecrypt key p.nonce p.ciphertext aad

/-- `EncryptionService.encrypt_bytes`. -/
def encrypt_bytes (key nonce pt : List Nat) : List Nat :=
  (serviceEncrypt key nonce pt none).to_combined

/-- `EncryptionService.decrypt_bytes`. -/
def decrypt_bytes (key data : List Nat) : Option (List Nat) :=
  match EncryptedPayload.from_combined data with
  | none => none
  | some p => serviceDecrypt key p none

/-- C6 counterexample: with the vault unlocked, the empty byte string does
*not* round-trip — `encrypt_bytes b""` is 28 bytes
(`nonce 12 + tag 16`), and `from_combined` rejects anything shorter than
`nonce_len + tag_len + 1 = 29`, so `decrypt_bytes` raises instead of
returning `b""`. -/
theorem encrypt_decrypt_empty_fails :
    decrypt_bytes (List.replicate 32 1)
      (encrypt_bytes (List.replicate 32 1) (List.replicate 12 0) []) = none := by
  decide

/-- C6 (amended). For every *non-empty* byte string `x`, when the vault is
unlocked, `decrypt_bytes (encrypt_bytes x) = x` with the same key; the
empty byte string is the one exception (`from_combined` rejects its
28-byte wire form). -/
theorem aesgcm_roundtrip (key nonce pt : List Nat) (aad : Option (List Nat)) :
    aesgcmDecrypt key nonce (aesgcmEncrypt key nonce pt aad) aad = some pt := by
  have hlen : (pt ++ gcmTag key nonce aad pt).length = pt.length + cryptoTagLen := by
    simp [gcmTag]
  unfold aesgcmEncrypt aesgcmDecrypt
  rw [hlen, if_neg (show ¬ pt.length + cryptoTagLen < cryptoTagLen by omega),
    Nat.add_sub_cancel, List.take_left' rfl, List.drop_left' rfl, if_pos rfl]

theorem encrypt_decrypt_roundtrip (key nonce pt : List Nat)
    (hn : nonce.length = cryptoNonceLen) (hpt : pt ≠ []) :
    decrypt_bytes key (encrypt_bytes key nonce pt) = some pt := by
  have hptlen : 1 ≤ pt.length := by
    cases pt with
    | nil => exact absurd rfl hpt
    | cons a as => simp
  have hct : (aesgcmEncrypt key nonce pt none).length = pt.length + cryptoTagLen := by
    unfold aesgcmEncrypt gcmTag
    simp
  have hnotshort : ¬ ((nonce ++ aesgcmEncrypt key nonce pt none).length <
      cryptoNonceLen + cryptoTagLen + 1) := by
    simp only [List.length_append, hct, hn]
    omega
  unfold encrypt_bytes serviceEncrypt EncryptedPayload.to_combined
  unfold decrypt_bytes EncryptedPayload.from_combined
  simp only
  rw [if_neg hnotshort]
  show serviceDecrypt key
    ⟨(nonce ++ aesgcmEncrypt key nonce pt none).take cryptoNonceLen,
     (nonce ++ aesgcmEncrypt key nonce pt none).drop cryptoNonceLen⟩ none = some pt
  rw [List.take_left' hn, List.drop_left' hn]
  exact aesgcm_roundtrip key nonce pt none

/-- Witness for C6 (amended) at a one-byte plaintext. -/
theorem encrypt_decrypt_roundtrip_witness :
    (List.replicate 12 0 : List Nat).length = cryptoNonceLen ∧
    ([42] : List Nat) ≠ [] ∧
    decrypt_bytes (List.replicate 32 1)
      (encrypt_bytes (List.replicate 32 1) (List.replicate 12 0) [42]) = some [42] :=
  ⟨by decide, by decide,
    encrypt_decrypt_roundtrip (List.replicate 32 1) (List.replicate 12 0) [42]
      (by decide) (by decide)⟩

/-! ### Sync envelopes (`encrypt_sync_payload` / `decrypt_sync_payload`)

The vault session (`vault.get_key()` / `vault.key_id`) is a key and its
key id; the envelope's `payload` is the encrypted JSON bytes (base64
transport elided).  `decrypt_sync_payload` checks only the version field;
warnings it would log are returned explicitly (the source logs none).
-/

structure VaultSession where
  key : List Nat
  key_id : String
deriving DecidableEq

structure SyncEnvelope where
  v : Nat
  key_id : String
  payload : List Nat
deriving DecidableEq

/-- `EncryptionService.encrypt_sync_payload`. -/
def encrypt_sync_payload (vault : VaultSession) (nonce data : List Nat) : SyncEnvelope :=
  { v := 1, key_id := vault.key_id, payload := encrypt_bytes vault.key nonce data }

/-- `EncryptionService.decrypt_sync_payload`: raise unless `v == 1`, then
decrypt.  The returned list is the log lines the call emits (none in the
source — in particular, no key-id comparison and no warning). -/
def decrypt_sync_payload (vault : VaultSession) (env : SyncEnvelope) :
    Except String (List Nat) × List String :=
  if env.v ≠ 1 then (Except.error "Unsupported sync payload version", [])
  else
    (match decrypt_bytes vault.key env.payload with
     | some pt => Except.ok pt
     | none => Except.error "AuthFailed", [])

/-- C7 counterexample: an envelope whose `key_id` differs from the
vault's current key id is decrypted silently — the call succeeds and
emits no warning, contradicting "verifies that env's key_id matches …
logging a warning on a mismatch". -/
theorem decrypt_sync_payload_ignores_key_id :
    (decrypt_sync_payload ⟨List.replicate 32 1, "A"⟩
      { encrypt_sync_payload ⟨List.replicate 32 1, "A"⟩ (List.replicate 12 0) [7] with
        key_id := "B" }) = (Except.ok [7], []) := by
  rfl

/-- C7 (amended). `decrypt_sync_payload` verifies `v == 1`, raising
otherwise; it performs *no* key-id comparison: the result is independent
of the envelope's `key_id`, decryption is attempted regardless, and no
warning is logged. -/
theorem decrypt_sync_payload_spec (vault : VaultSession) (env : SyncEnvelope)
    (kid : String) :
    (decrypt_sync_payload vault env).2 = [] ∧
    (env.v ≠ 1 → ∃ msg, (decrypt_sync_payload vault env).1 = Except.error msg) ∧
    (env.v = 1 → (decrypt_sync_payload vault env).1 =
      match decrypt_bytes vault.key env.payload with
      | some pt => Except.ok pt
      | none => Except.error "AuthFailed") ∧
    decrypt_sync_payload vault { env with key_id := kid } =
      decrypt_sync_payload vault env := by
  refine ⟨?_, ?_, ?_, ?_⟩
  · unfold decrypt_sync_payload
    split_ifs <;> rfl
  · intro hv
    unfold decrypt_sync_payload
    rw [if_pos hv]
    exact ⟨"Unsupported sync payload version", rfl⟩
  · intro hv
    unfold decrypt_sync_payload
    rw [if_neg (by omega : ¬ env.v ≠ 1)]
  · unfold decrypt_sync_payload
    rfl

/-- Witness for C7 (amended) at a matching envelope with `v = 1`. -/
theorem decrypt_sync_payload_spec_witness :
    ((1:Nat) = 1) ∧
    (decrypt_sync_payload ⟨List.replicate 32 1, "A"⟩ ⟨1, "A", [9]⟩).1 =
      (match decrypt_bytes (List.replicate 32 1) [9] with
       | some pt => Except.ok pt
       | none => Except.error "AuthFailed") :=
  ⟨rfl, (decrypt_sync_payload_spec ⟨List.replicate 32 1, "A"⟩ ⟨1, "A", [9]⟩ "B").2.2.1 rfl⟩

/-! ### Pull and decryption failures (`SyncProtocol.pull`)

For one remote device, `pull` loops over its batches in order:
`download → decrypt_bytes → parse → apply`, advancing
`last_pulled_hlc` per batch.  The loop body has no exception handler: a
failed decryption propagates out of `pull`, and the enclosing `get_db()`
transaction rolls back, so nothing of the pull survives.  The model
returns the list of batch ids applied, or the propagated error. -/
def pullBatches (key : List Nat) : List (String × List Nat) → Except String (List String)
  | [] => Except.ok []
  | (bid, data) :: rest =>
    match decrypt_bytes key data with
    | none => Except.error ("decryption failed for batch " ++ bid)
    | some _ =>
      match pullBatches key rest with
      | Except.ok applied => Except.ok (bid :: applied)
      | Except.error e => Except.error e

/-- C8, evaluated at the failing input: a corrupted first batch makes the
whole pull fail — the second, perfectly decryptable batch is never
applied — whereas alone that second batch pulls fine.  (The claim, with
the spec, requires the corrupted batch alone to be skipped.) -/
theorem pull_decrypt_failure_aborts :
    pullBatches (List.replicate 32 1)
      [("b1", List.replicate 29 0),
       ("b2", encrypt_bytes (List.replicate 32 1) (List.replicate 12 0) [7])] =
      Except.error "decryption failed for batch b1" ∧
    pullBatches (List.replicate 32 1)
      [("b2", encrypt_bytes (List.replicate 32 1) (List.replicate 12 0) [7])] =
      Except.ok ["b2"] := by
  exact ⟨rfl, rfl⟩

/-! ### Device removal (`SyncEngine.remove_device`,
`src/backend/sync/engine.py`)

`cloud.delete_device_data` runs inside `try/except`: its outcome is passed
in as an `Except` value.  The device table is a row list; `db.delete` +
`commit` become returning the updated list. -/

structure DeviceRec where
  id : String
  name : String
  is_current : Bool
deriving DecidableEq

structure RemoveResult where
  device_id : String
  cloud_objects_deleted : Nat
deriving DecidableEq

/-- `SyncEngine.remove_device`. -/
def removeDevice (db : List DeviceRec) (cloudResult : Except String Nat)
    (deviceId : String) : Except String (List DeviceRec × RemoveResult) :=
  match db.find? (fun d => d.id == deviceId) with
  | none => Except.error ("Device not found: " ++ deviceId)
  | some device =>
    if device.is_current then Except.error "Cannot remove the current device"
    else
      let deleted := match cloudResult with
        | Except.ok n => n
        | Except.error _ => 0
      Except.ok (db.eraseP (fun d => d.id == deviceId), ⟨deviceId, deleted⟩)

/-- C10. When `cloud.delete_device_data` raises for an existing,
non-current device, `remove_device` still deletes and commits the local
row, propagates no error, and returns `cloud_objects_deleted = 0`. -/
theorem remove_device_swallows_cloud_error (db : List DeviceRec)
    (deviceId err : String) (device : DeviceRec)
    (hfind : db.find? (fun d => d.id == deviceId) = some device)
    (hcur : device.is_current = false) :
    removeDevice db (Except.error err) deviceId =
      Except.ok (db.eraseP (fun d => d.id == deviceId), ⟨deviceId, 0⟩) := by
  unfold removeDevice
  rw [hfind]
  simp [hcur]

/-- Witness for C10: two devices, the cloud call raising; the non-current
one is removed locally with zero cloud objects reported. -/
theorem remove_device_swallows_cloud_error_witness :
    removeDevice [⟨"a", "x", true⟩, ⟨"b", "y", false⟩] (Except.error "boom") "b" =
      Except.ok ([⟨"a", "x", true⟩], ⟨"b", 0⟩) := by
  have h := remove_device_swallows_cloud_error
    [⟨"a", "x", true⟩, ⟨"b", "y", false⟩] "b" "boom" ⟨"b", "y", false⟩
    (by decide) rfl
  rw [h]
  rfl

end Lime
